import Mathlib

/-!
Verification of the redis_deploy repository's placement, installation,
cluster-formation, validation and SSH dry-run behaviour.

The definitions below are shallow embeddings of the Python sources:
  * `src/redis_deploy/placement.py`  (Instance, enumerate_instances, assign_roles)
  * `src/redis_deploy/config.py`     (TopologyConfig.validate, numeric checks)
  * `src/redis_deploy/ssh.py`        (SSH.run / put_text / mkdirs / connect, quote_sh)
  * `src/redis_deploy/install.py`    (detect_distro, validate_system_requirements,
                                      install_redis_from_source)
  * `src/redis_deploy/cluster.py`    (build_cluster_create_command, create_cluster)
  * `src/redis_deploy/validate.py`   (validate_cluster and its helpers)

Python integers are modelled as `Int` (with `Int.toNat` where `range(n)`
semantics truncate negatives), Python lists as `List`, Python dicts as
insertion-ordered association lists, raised exceptions as `Except String`,
and the unbounded `while` loop of `assign_roles` as a fuel-indexed function
(`none` = the loop did not finish within the given fuel).  Remote commands
executed over SSH are modelled by an explicit executor function from the
full command string to the `(exit code, stdout, stderr)` triple.
-/

/-- Mirror of `placement.Instance`: a frozen `(host, port)` dataclass with
value equality. -/
structure Instance where
  host : String
  port : Int
deriving DecidableEq, Repr

/-- Mirror of `config.PortsConfig`. -/
structure PortsConfig where
  base : Int
  count_per_host : Int
deriving DecidableEq, Repr

/-- Mirror of `config.ClusterConfig` (the `create` flag is not needed by any
claim about the placement algorithm itself). -/
structure ClusterConfig where
  masters : Int
  replicas_per_master : Int
deriving DecidableEq, Repr

/-- Mirror of `config.TopologyConfig`, restricted to the fields read by the
placement algorithm and by the numeric part of `TopologyConfig.validate`
(nodes, ports, cluster).  The remaining fields (persistence, paths, ssh,
observability, ...) are never read by the code the claims are about. -/
structure TopologyConfig where
  nodes : List String
  ports : PortsConfig
  cluster : ClusterConfig
deriving DecidableEq, Repr

/-- Mirror of `TopologyConfig.total_instances`:
`len(self.nodes) * self.ports.count_per_host`. -/
def TopologyConfig.totalInstances (cfg : TopologyConfig) : Int :=
  (cfg.nodes.length : Int) * cfg.ports.count_per_host

/-- The numeric checks of `TopologyConfig.validate` (config.py lines 119-145)
over the modelled fields: masters > 0, replicas_per_master >= 0, the two
capacity checks, non-empty nodes, and the port-range checks.  The
persistence-mode and SSH-credential checks of `validate` concern fields that
the placement code never reads and are not modelled. -/
def TopologyConfig.validateOk (cfg : TopologyConfig) : Prop :=
  0 < cfg.cluster.masters ∧
  0 ≤ cfg.cluster.replicas_per_master ∧
  cfg.cluster.masters ≤ cfg.totalInstances ∧
  cfg.cluster.masters * (1 + cfg.cluster.replicas_per_master) ≤ cfg.totalInstances ∧
  cfg.nodes ≠ [] ∧
  1024 ≤ cfg.ports.base ∧ cfg.ports.base ≤ 65500 ∧
  0 < cfg.ports.count_per_host ∧ cfg.ports.base + cfg.ports.count_per_host < 65535

instance (cfg : TopologyConfig) : Decidable cfg.validateOk := by
  unfold TopologyConfig.validateOk; infer_instance

/-- Mirror of `placement.enumerate_instances`: for each host in spec order,
for `i in range(count_per_host)`, the endpoint `(host, base + i)`. -/
def enumerateInstances (cfg : TopologyConfig) : List Instance :=
  cfg.nodes.flatMap (fun host =>
    (List.range cfg.ports.count_per_host.toNat).map
      (fun (i : Nat) => { host := host, port := cfg.ports.base + (i : Int) }))

/-! ### The `host_to_instances` dict

`assign_roles` builds `host_to_instances = {h: [] for h in cfg.nodes}` and
then appends every enumerated instance to its host's bucket.  A Python dict
is modelled as an insertion-ordered association list; the comprehension
creates each key once (first occurrence wins). -/

/-- Association-list model of a `str -> List[Instance]` Python dict. -/
abbrev HostDict := List (String × List Instance)

/-- `k in d` for the dict model. -/
def dictHasKey (d : HostDict) (k : String) : Bool :=
  d.any (fun p => p.1 == k)

/-- `d[k]` for the dict model; total, returning `[]` for a missing key.
Every lookup performed by `assign_roles` uses a key that is present
(all hosts of enumerated instances are in `cfg.nodes`). -/
def dictLookup (d : HostDict) (k : String) : List Instance :=
  match d.find? (fun p => p.1 == k) with
  | some p => p.2
  | none => []

/-- `d[k] = f(d[k])` for the dict model. -/
def dictUpdate (d : HostDict) (k : String) (f : List Instance → List Instance) : HostDict :=
  d.map (fun p => if p.1 == k then (p.1, f p.2) else p)

/-- `{h: [] for h in nodes}`: one key per distinct host, in first-occurrence
order, each mapped to the empty list. -/
def dictInit (nodes : List String) : HostDict :=
  nodes.foldl (fun d h => if dictHasKey d h then d else d ++ [(h, [])]) []

/-- The loop `for inst in all_instances: host_to_instances[inst.host].append(inst)`
starting from `dictInit nodes`. -/
def buildH2I (nodes : List String) (insts : List Instance) : HostDict :=
  insts.foldl (fun d i => dictUpdate d i.host (fun l => l ++ [i])) (dictInit nodes)

/-- The round-robin master-selection `while` loop of `assign_roles`
(placement.py lines 30-39), indexed by fuel since the Python loop has no
syntactic bound (`none` means the loop did not exit within `fuel`
iterations).  One call with `fuel+1` performs one iteration:
guard `len(masters) < cfg.cluster.masters and all_instances`, candidate
computation, optional append/remove, `host_index += 1`, and the defensive
`break` check `host_index > len(nodes) * 2 and len(masters) == 0`
(a `break` returns the masters accumulated so far, exactly as in the
source, which raises nothing there). -/
def selectMastersLoop (nodes : List String) (mastersTarget : Int) (allInst : List Instance) :
    Nat → List Instance → HostDict → Nat → Option (List Instance)
  | 0, _, _, _ => none
  | fuel + 1, masters, h2i, hostIndex =>
    if ((masters.length : Int) < mastersTarget ∧ allInst ≠ []) then
      match (dictLookup h2i (nodes.getD (hostIndex % nodes.length) "")).filter
          (fun i => !(masters.contains i)) with
      | [] =>
        if (hostIndex + 1 > nodes.length * 2 ∧ masters.length = 0) then some masters
        else selectMastersLoop nodes mastersTarget allInst fuel masters h2i (hostIndex + 1)
      | c :: _ =>
        if (hostIndex + 1 > nodes.length * 2 ∧ (masters ++ [c]).length = 0) then
          some (masters ++ [c])
        else
          selectMastersLoop nodes mastersTarget allInst fuel (masters ++ [c])
            (dictUpdate h2i (nodes.getD (hostIndex % nodes.length) "") (fun l => l.erase c))
            (hostIndex + 1)
    else some masters

/-- The exception message of `assign_roles` when the replica pool is
exhausted. -/
def insufficientReplicasMsg : String :=
  "Insufficient instances to place replicas on distinct hosts"

/-- The inner replica loop of `assign_roles` for one master
(placement.py lines 44-49): `replicas_per_master` times, take the first
remaining instance on a different host, or raise. -/
def assignReplicasForMaster (m : Instance) :
    Nat → List Instance → Except String (List Instance × List Instance)
  | 0, remaining => .ok ([], remaining)
  | q + 1, remaining =>
    match remaining.find? (fun i => i.host != m.host) with
    | none => .error insufficientReplicasMsg
    | some c =>
      match assignReplicasForMaster m q (remaining.erase c) with
      | .error e => .error e
      | .ok (rs, rem) => .ok (c :: rs, rem)

/-- The outer replica loop of `assign_roles` (`for m in masters: ...`),
returning the per-master replica lists in master order together with the
final pool. -/
def assignReplicasAll (quota : Nat) :
    List Instance → List Instance → Except String (List (Instance × List Instance) × List Instance)
  | [], remaining => .ok ([], remaining)
  | m :: ms, remaining =>
    match assignReplicasForMaster m quota remaining with
    | .error e => .error e
    | .ok (rs, rem) =>
      match assignReplicasAll quota ms rem with
      | .error e => .error e
      | .ok (pairs, rem') => .ok ((m, rs) :: pairs, rem')

/-- Mirror of `placement.assign_roles`, fuel-indexed through the master
selection loop.  `none`: the while loop did not exit within `fuel`
iterations; `some (.error e)`: the Python function raised `ValueError e`;
`some (.ok (masters, replicas))`: it returned that result (the replica
dict is an association list in master order, as built by
`{m: [] for m in masters}` plus in-order appends). -/
def assignRolesFuel (cfg : TopologyConfig) (fuel : Nat) :
    Option (Except String (List Instance × List (Instance × List Instance))) :=
  let allInstances := enumerateInstances cfg
  let h2i := buildH2I cfg.nodes allInstances
  match selectMastersLoop cfg.nodes cfg.cluster.masters allInstances fuel [] h2i 0 with
  | none => none
  | some masters =>
    let remaining := allInstances.filter (fun i => !(masters.contains i))
    match assignReplicasAll cfg.cluster.replicas_per_master.toNat masters remaining with
    | .error e => some (.error e)
    | .ok (replicas, _rem) => some (.ok (masters, replicas))

/-- All endpoints appearing across the returned masters and every replica
list, in order — the collection the uniqueness claim is about. -/
def combinedEndpoints (masters : List Instance)
    (replicas : List (Instance × List Instance)) : List Instance :=
  masters ++ replicas.flatMap (fun p => p.2)

/-! ### Dictionary lemmas -/

theorem dictLookup_nil (k : String) : dictLookup [] k = [] := rfl

theorem dictLookup_cons (p : String × List Instance) (d : HostDict) (k : String) :
    dictLookup (p :: d) k = if p.1 == k then p.2 else dictLookup d k := by
  by_cases h : p.1 == k
  · simp [dictLookup, List.find?_cons_of_pos, h]
  · simp only [Bool.not_eq_true] at h
    simp [dictLookup, List.find?_cons_of_neg, h]

theorem dictHasKey_cons (p : String × List Instance) (d : HostDict) (k : String) :
    dictHasKey (p :: d) k = ((p.1 == k) || dictHasKey d k) := by
  simp [dictHasKey]

theorem dictUpdate_cons (p : String × List Instance) (d : HostDict) (k : String)
    (f : List Instance → List Instance) :
    dictUpdate (p :: d) k f =
      (if p.1 == k then (p.1, f p.2) else p) :: dictUpdate d k f := rfl

theorem dictUpdate_entry_key (p : String × List Instance) (k : String)
    (f : List Instance → List Instance) :
    (if p.1 == k then (p.1, f p.2) else p).1 = p.1 := by
  split <;> rfl

theorem dictHasKey_of_lookup_ne_nil {d : HostDict} {k : String}
    (h : dictLookup d k ≠ []) : dictHasKey d k = true := by
  induction d with
  | nil => exact absurd rfl h
  | cons p t ih =>
    rw [dictLookup_cons] at h
    rw [dictHasKey_cons]
    by_cases hp : (p.1 == k) = true
    · simp [hp]
    · rw [if_neg hp] at h
      simp [ih h]

theorem dictHasKey_update (d : HostDict) (k k' : String) (f : List Instance → List Instance) :
    dictHasKey (dictUpdate d k f) k' = dictHasKey d k' := by
  induction d with
  | nil => rfl
  | cons p t ih =>
    rw [dictUpdate_cons, dictHasKey_cons, dictHasKey_cons, dictUpdate_entry_key, ih]

theorem dictLookup_update_self {d : HostDict} {k : String} (f : List Instance → List Instance)
    (h : dictHasKey d k = true) : dictLookup (dictUpdate d k f) k = f (dictLookup d k) := by
  induction d with
  | nil => simp [dictHasKey] at h
  | cons p t ih =>
    rw [dictUpdate_cons]
    by_cases hp : (p.1 == k) = true
    · rw [if_pos hp, dictLookup_cons, dictLookup_cons]
      simp only [hp, if_true]
    · rw [if_neg hp, dictLookup_cons, dictLookup_cons, if_neg hp, if_neg hp]
      rw [dictHasKey_cons] at h
      rcases Bool.or_eq_true_iff.1 h with h1 | h1
      · exact absurd h1 hp
      · exact ih h1

theorem dictLookup_update_other {d : HostDict} {k k' : String}
    (f : List Instance → List Instance) (h : k' ≠ k) :
    dictLookup (dictUpdate d k f) k' = dictLookup d k' := by
  induction d with
  | nil => rfl
  | cons p t ih =>
    rw [dictUpdate_cons]
    by_cases hp : (p.1 == k) = true
    · have hpk : p.1 = k := by simpa using hp
      have hpk' : ¬ ((p.1 == k') = true) := by simp [hpk, Ne.symm h]
      rw [if_pos hp, dictLookup_cons, dictLookup_cons]
      simp only [hpk]
      have hkk' : ¬ ((k == k') = true) := by simp [Ne.symm h]
      rw [if_neg hkk', if_neg (by simpa [hpk] using hpk'), ih]
    · rw [if_neg hp, dictLookup_cons, dictLookup_cons]
      by_cases hq : (p.1 == k') = true
      · rw [if_pos hq, if_pos hq]
      · rw [if_neg hq, if_neg hq, ih]

/-- Every value stored by `dictInit` is the empty list. -/
theorem dictInit_values (nodes : List String) :
    ∀ p ∈ dictInit nodes, p.2 = [] := by
  unfold dictInit
  suffices h : ∀ (acc : HostDict), (∀ p ∈ acc, p.2 = []) →
      ∀ p ∈ nodes.foldl (fun d h => if dictHasKey d h then d else d ++ [(h, [])]) acc, p.2 = [] by
    exact h [] (by simp)
  induction nodes with
  | nil => intro acc hacc; simpa using hacc
  | cons n t ih =>
    intro acc hacc
    simp only [List.foldl_cons]
    by_cases hk : dictHasKey acc n
    · simp only [hk, if_true]
      exact ih acc hacc
    · simp only [hk, if_false]
      refine ih _ ?_
      intro p hp
      rcases List.mem_append.1 hp with h1 | h1
      · exact hacc p h1
      · simp at h1; simp [h1]

theorem dictLookup_of_values_nil {d : HostDict} (h : ∀ p ∈ d, p.2 = []) (k : String) :
    dictLookup d k = [] := by
  induction d with
  | nil => rfl
  | cons p t ih =>
    rw [dictLookup_cons]
    by_cases hp : p.1 == k
    · simp [hp, h p (by simp)]
    · simp only [Bool.not_eq_true] at hp
      simp [hp, ih (fun q hq => h q (by simp [hq]))]

theorem dictInit_lookup (nodes : List String) (k : String) :
    dictLookup (dictInit nodes) k = [] :=
  dictLookup_of_values_nil (dictInit_values nodes) k

theorem dictHasKey_append_singleton (d : HostDict) (h k : String) :
    dictHasKey (d ++ [(h, [])]) k = (dictHasKey d k || (h == k)) := by
  simp [dictHasKey, List.any_append]

theorem dictInit_hasKey_aux (k : String) :
    ∀ (nodes : List String) (acc : HostDict),
    dictHasKey (nodes.foldl (fun d h => if dictHasKey d h then d else d ++ [(h, [])]) acc) k =
      (dictHasKey acc k || decide (k ∈ nodes)) := by
  intro nodes
  induction nodes with
  | nil => intro acc; simp
  | cons n t ih =>
    intro acc
    simp only [List.foldl_cons]
    by_cases hk : dictHasKey acc n = true
    · rw [if_pos hk, ih]
      by_cases hkn : k = n
      · subst hkn; simp [hk]
      · simp [List.mem_cons, hkn]
    · rw [if_neg hk, ih, dictHasKey_append_singleton]
      by_cases hkn : n = k
      · subst hkn; simp [List.mem_cons]
      · have hkn' : ¬ k = n := fun h => hkn h.symm
        have hb : (n == k) = false := by simp [hkn]
        simp [List.mem_cons, hkn', hb, Bool.or_assoc]

theorem dictInit_hasKey (nodes : List String) (k : String) :
    dictHasKey (dictInit nodes) k = true ↔ k ∈ nodes := by
  unfold dictInit
  rw [dictInit_hasKey_aux]
  simp [dictHasKey]

/-- Characterisation of the fully built `host_to_instances` dict: provided
every instance's host is a dict key (which `dictInit cfg.nodes` guarantees
for enumerated instances), the bucket of key `k` holds exactly the
instances whose host is `k`, in enumeration order. -/
theorem buildH2I_fold_lookup (insts : List Instance) :
    ∀ (d : HostDict) (k : String), (∀ i ∈ insts, dictHasKey d i.host = true) →
    dictLookup (insts.foldl (fun d i => dictUpdate d i.host (fun l => l ++ [i])) d) k =
      dictLookup d k ++ insts.filter (fun i => i.host == k) := by
  induction insts with
  | nil => intro d k _; simp
  | cons i t ih =>
    intro d k hkeys
    simp only [List.foldl_cons, List.filter_cons]
    have hkey : dictHasKey d i.host = true := hkeys i (by simp)
    have hrest : ∀ j ∈ t, dictHasKey (dictUpdate d i.host (fun l => l ++ [i])) j.host = true := by
      intro j hj
      rw [dictHasKey_update]
      exact hkeys j (by simp [hj])
    rw [ih _ k hrest]
    by_cases hk : i.host == k
    · have hk' : i.host = k := by simpa using hk
      subst hk'
      rw [dictLookup_update_self _ hkey]
      simp [hk]
    · have hk' : i.host ≠ k := by simpa using hk
      rw [dictLookup_update_other _ (Ne.symm hk')]
      simp [hk]

theorem buildH2I_lookup {nodes : List String} {insts : List Instance}
    (hhosts : ∀ i ∈ insts, i.host ∈ nodes) (k : String) :
    dictLookup (buildH2I nodes insts) k = insts.filter (fun i => i.host == k) := by
  unfold buildH2I
  rw [buildH2I_fold_lookup insts (dictInit nodes) k
    (fun i hi => (dictInit_hasKey nodes i.host).2 (hhosts i hi))]
  rw [dictInit_lookup]
  rfl

/-! ### Lemmas about `enumerateInstances` -/

theorem host_mem_of_mem_enumerate {cfg : TopologyConfig} {i : Instance}
    (h : i ∈ enumerateInstances cfg) : i.host ∈ cfg.nodes := by
  rcases List.mem_flatMap.1 h with ⟨host, hhost, hi⟩
  rcases List.mem_map.1 hi with ⟨j, _, rfl⟩
  simpa using hhost

theorem flatMap_const_length {α β : Type} (l : List α) (f : α → List β) (k : Nat)
    (h : ∀ a ∈ l, (f a).length = k) : (l.flatMap f).length = l.length * k := by
  induction l with
  | nil => simp
  | cons a t ih =>
    rw [List.flatMap_cons, List.length_append, h a (by simp),
      ih (fun x hx => h x (by simp [hx])), List.length_cons, Nat.succ_mul, Nat.add_comm]

theorem enumerate_length (cfg : TopologyConfig) :
    (enumerateInstances cfg).length = cfg.nodes.length * cfg.ports.count_per_host.toNat := by
  unfold enumerateInstances
  exact flatMap_const_length _ _ _ (fun a _ => by simp)

theorem enumerate_head_mem {cfg : TopologyConfig} (hn : cfg.nodes ≠ [])
    (hc : 0 < cfg.ports.count_per_host.toNat) :
    ({ host := cfg.nodes.getD 0 "", port := cfg.ports.base } : Instance) ∈
      enumerateInstances cfg := by
  apply List.mem_flatMap.2
  refine ⟨cfg.nodes.getD 0 "", ?_, ?_⟩
  · cases hcons : cfg.nodes with
    | nil => exact absurd hcons hn
    | cons h t => simp
  · apply List.mem_map.2
    exact ⟨0, List.mem_range.2 hc, by simp⟩

theorem enumerate_nodup_aux (b : Int) (k : Nat) :
    ∀ (nodes : List String), nodes.Nodup →
    (nodes.flatMap (fun host => (List.range k).map
      (fun (i : Nat) => ({ host := host, port := b + (i : Int) } : Instance)))).Nodup := by
  intro nodes
  induction nodes with
  | nil => intro _; simp
  | cons n t ih =>
    intro h
    rw [List.nodup_cons] at h
    rw [List.flatMap_cons]
    apply List.Nodup.append
    · apply List.Nodup.map
      · intro x y hxy
        have hp : b + (x : Int) = b + (y : Int) := congrArg Instance.port hxy
        have : (x : Int) = (y : Int) := by omega
        exact_mod_cast this
      · exact List.nodup_range k
    · exact ih h.2
    · intro x hx hx'
      rcases List.mem_map.1 hx with ⟨j, _, rfl⟩
      rcases List.mem_flatMap.1 hx' with ⟨host, hhost, hmem⟩
      rcases List.mem_map.1 hmem with ⟨j', _, hEq⟩
      have : host = n := congrArg Instance.host hEq
      exact h.1 (this ▸ hhost)

theorem enumerate_nodup {cfg : TopologyConfig} (h : cfg.nodes.Nodup) :
    (enumerateInstances cfg).Nodup := by
  unfold enumerateInstances
  exact enumerate_nodup_aux _ _ _ h

/-! ### Lemmas about the replica-assignment phase -/

theorem replicasForMaster_hosts {m : Instance} :
    ∀ (q : Nat) (rem rs rem' : List Instance),
    assignReplicasForMaster m q rem = .ok (rs, rem') → ∀ r ∈ rs, r.host ≠ m.host := by
  intro q
  induction q with
  | zero =>
    intro rem rs rem' h r hr
    simp only [assignReplicasForMaster, Except.ok.injEq, Prod.mk.injEq] at h
    obtain ⟨h1, h2⟩ := h
    subst h1
    simp at hr
  | succ q ih =>
    intro rem rs rem' h r hr
    simp only [assignReplicasForMaster] at h
    cases hfind : rem.find? (fun i => i.host != m.host) with
    | none => simp [hfind] at h
    | some c =>
      simp only [hfind] at h
      cases hrec : assignReplicasForMaster m q (rem.erase c) with
      | error e => simp [hrec] at h
      | ok pr =>
        obtain ⟨rs0, rem0⟩ := pr
        simp only [hrec, Except.ok.injEq, Prod.mk.injEq] at h
        obtain ⟨h1, h2⟩ := h
        subst h1; subst h2
        rcases List.mem_cons.1 hr with rfl | hr2
        · have := List.find?_some hfind
          simpa using this
        · exact ih _ _ _ hrec r hr2

theorem replicasForMaster_length {m : Instance} :
    ∀ (q : Nat) (rem rs rem' : List Instance),
    assignReplicasForMaster m q rem = .ok (rs, rem') → rs.length = q := by
  intro q
  induction q with
  | zero =>
    intro rem rs rem' h
    simp only [assignReplicasForMaster, Except.ok.injEq, Prod.mk.injEq] at h
    obtain ⟨h1, _⟩ := h
    subst h1; rfl
  | succ q ih =>
    intro rem rs rem' h
    simp only [assignReplicasForMaster] at h
    cases hfind : rem.find? (fun i => i.host != m.host) with
    | none => simp [hfind] at h
    | some c =>
      simp only [hfind] at h
      cases hrec : assignReplicasForMaster m q (rem.erase c) with
      | error e => simp [hrec] at h
      | ok pr =>
        obtain ⟨rs0, rem0⟩ := pr
        simp only [hrec, Except.ok.injEq, Prod.mk.injEq] at h
        obtain ⟨h1, h2⟩ := h
        subst h1; subst h2
        simp [ih _ _ _ hrec]

theorem replicasForMaster_perm {m : Instance} :
    ∀ (q : Nat) (rem rs rem' : List Instance),
    assignReplicasForMaster m q rem = .ok (rs, rem') → (rs ++ rem').Perm rem := by
  intro q
  induction q with
  | zero =>
    intro rem rs rem' h
    simp only [assignReplicasForMaster, Except.ok.injEq, Prod.mk.injEq] at h
    obtain ⟨h1, h2⟩ := h
    subst h1; subst h2
    simp
  | succ q ih =>
    intro rem rs rem' h
    simp only [assignReplicasForMaster] at h
    cases hfind : rem.find? (fun i => i.host != m.host) with
    | none => simp [hfind] at h
    | some c =>
      simp only [hfind] at h
      cases hrec : assignReplicasForMaster m q (rem.erase c) with
      | error e => simp [hrec] at h
      | ok pr =>
        obtain ⟨rs0, rem0⟩ := pr
        simp only [hrec, Except.ok.injEq, Prod.mk.injEq] at h
        obtain ⟨h1, h2⟩ := h
        subst h1; subst h2
        have h1 : (rs0 ++ rem0).Perm (rem.erase c) := ih _ _ _ hrec
        have h2 : rem.Perm (c :: rem.erase c) :=
          List.perm_cons_erase (List.mem_of_find?_eq_some hfind)
        have h3 : (c :: (rs0 ++ rem0)).Perm (c :: rem.erase c) := h1.cons c
        exact h3.trans h2.symm

theorem replicasAll_hosts {quota : Nat} :
    ∀ (ms rem : List Instance) (pairs : List (Instance × List Instance)) (rem' : List Instance),
    assignReplicasAll quota ms rem = .ok (pairs, rem') →
    ∀ p ∈ pairs, ∀ r ∈ p.2, r.host ≠ p.1.host := by
  intro ms
  induction ms with
  | nil =>
    intro rem pairs rem' h p hp
    simp only [assignReplicasAll, Except.ok.injEq, Prod.mk.injEq] at h
    obtain ⟨h1, _⟩ := h
    subst h1
    simp at hp
  | cons m tl ih =>
    intro rem pairs rem' h p hp
    simp only [assignReplicasAll] at h
    cases hfm : assignReplicasForMaster m quota rem with
    | error e => simp [hfm] at h
    | ok pr =>
      obtain ⟨rs0, rem0⟩ := pr
      simp only [hfm] at h
      cases hrec : assignReplicasAll quota tl rem0 with
      | error e => simp [hrec] at h
      | ok pr2 =>
        obtain ⟨pairs0, rem1⟩ := pr2
        simp only [hrec, Except.ok.injEq, Prod.mk.injEq] at h
        obtain ⟨h1, h2⟩ := h
        subst h1; subst h2
        rcases List.mem_cons.1 hp with rfl | hp2
        · exact replicasForMaster_hosts quota rem rs0 rem0 hfm
        · exact ih _ _ _ hrec p hp2

theorem replicasAll_length {quota : Nat} :
    ∀ (ms rem : List Instance) (pairs : List (Instance × List Instance)) (rem' : List Instance),
    assignReplicasAll quota ms rem = .ok (pairs, rem') →
    ∀ p ∈ pairs, p.2.length = quota := by
  intro ms
  induction ms with
  | nil =>
    intro rem pairs rem' h p hp
    simp only [assignReplicasAll, Except.ok.injEq, Prod.mk.injEq] at h
    obtain ⟨h1, _⟩ := h
    subst h1
    simp at hp
  | cons m tl ih =>
    intro rem pairs rem' h p hp
    simp only [assignReplicasAll] at h
    cases hfm : assignReplicasForMaster m quota rem with
    | error e => simp [hfm] at h
    | ok pr =>
      obtain ⟨rs0, rem0⟩ := pr
      simp only [hfm] at h
      cases hrec : assignReplicasAll quota tl rem0 with
      | error e => simp [hrec] at h
      | ok pr2 =>
        obtain ⟨pairs0, rem1⟩ := pr2
        simp only [hrec, Except.ok.injEq, Prod.mk.injEq] at h
        obtain ⟨h1, h2⟩ := h
        subst h1; subst h2
        rcases List.mem_cons.1 hp with rfl | hp2
        · exact replicasForMaster_length quota rem rs0 rem0 hfm
        · exact ih _ _ _ hrec p hp2

theorem replicasAll_perm {quota : Nat} :
    ∀ (ms rem : List Instance) (pairs : List (Instance × List Instance)) (rem' : List Instance),
    assignReplicasAll quota ms rem = .ok (pairs, rem') →
    (pairs.flatMap (fun p => p.2) ++ rem').Perm rem := by
  intro ms
  induction ms with
  | nil =>
    intro rem pairs rem' h
    simp only [assignReplicasAll, Except.ok.injEq, Prod.mk.injEq] at h
    obtain ⟨h1, h2⟩ := h
    subst h1; subst h2
    simp
  | cons m tl ih =>
    intro rem pairs rem' h
    simp only [assignReplicasAll] at h
    cases hfm : assignReplicasForMaster m quota rem with
    | error e => simp [hfm] at h
    | ok pr =>
      obtain ⟨rs0, rem0⟩ := pr
      simp only [hfm] at h
      cases hrec : assignReplicasAll quota tl rem0 with
      | error e => simp [hrec] at h
      | ok pr2 =>
        obtain ⟨pairs0, rem1⟩ := pr2
        simp only [hrec, Except.ok.injEq, Prod.mk.injEq] at h
        obtain ⟨h1, h2⟩ := h
        subst h1
        rw [← h2]
        have ha : (pairs0.flatMap (fun p => p.2) ++ rem1).Perm rem0 := ih _ _ _ hrec
        have hb : (rs0 ++ rem0).Perm rem := replicasForMaster_perm quota rem rs0 rem0 hfm
        have hc : ((m, rs0) :: pairs0).flatMap (fun p => p.2) ++ rem1 =
            rs0 ++ (pairs0.flatMap (fun p => p.2) ++ rem1) := by
          simp [List.flatMap_cons]
        rw [hc]
        exact (ha.append_left rs0).trans hb

/-! ### Structural lemmas about the master-selection loop -/

theorem head_filter_not_contains {ms l : List Instance} {c : Instance} {cs : List Instance}
    (hc : l.filter (fun i => !(ms.contains i)) = c :: cs) : c ∉ ms ∧ c ∈ l := by
  have hmem : c ∈ l.filter (fun i => !(ms.contains i)) := by
    rw [hc]; exact List.mem_cons_self _ _
  have h := List.mem_filter.1 hmem
  refine ⟨?_, h.1⟩
  have hb := h.2
  simp only [Bool.not_eq_true'] at hb
  intro hmm
  rw [List.contains_eq_any_beq] at hb
  have : ms.any (fun x => c == x) = true := List.any_eq_true.2 ⟨c, hmm, by simp⟩
  rw [this] at hb
  cases hb

/-- If the loop is entered with a non-empty `masters` accumulator, whatever
it returns is non-empty (the accumulator only grows, and the defensive
`break` needs `len(masters) == 0`). -/
theorem selectLoop_ne_nil (nodes : List String) (M : Int) (allInst : List Instance) :
    ∀ (fuel : Nat) (ms : List Instance) (h2i : HostDict) (idx : Nat) (out : List Instance),
    ms ≠ [] → selectMastersLoop nodes M allInst fuel ms h2i idx = some out → out ≠ [] := by
  intro fuel
  induction fuel with
  | zero =>
    intro ms h2i idx out hms h
    simp [selectMastersLoop] at h
  | succ n ih =>
    intro ms h2i idx out hms h
    rw [selectMastersLoop] at h
    by_cases hg : ((ms.length : Int) < M ∧ allInst ≠ [])
    · rw [if_pos hg] at h
      cases hc : (dictLookup h2i (nodes.getD (idx % nodes.length) "")).filter
          (fun i => !(ms.contains i)) with
      | nil =>
        simp only [hc] at h
        by_cases hb : (idx + 1 > nodes.length * 2 ∧ ms.length = 0)
        · exact absurd (List.length_eq_zero.1 hb.2) hms
        · rw [if_neg hb] at h
          exact ih ms h2i (idx + 1) out hms h
      | cons c cs =>
        simp only [hc] at h
        by_cases hb : (idx + 1 > nodes.length * 2 ∧ (ms ++ [c]).length = 0)
        · exact absurd hb.2 (by simp)
        · rw [if_neg hb] at h
          exact ih _ _ _ out (by simp) h
    · rw [if_neg hg] at h
      cases h
      exact hms

/-- The masters accumulator stays duplicate-free: a candidate is only
appended when it is not already a master. -/
theorem selectLoop_nodup (nodes : List String) (M : Int) (allInst : List Instance) :
    ∀ (fuel : Nat) (ms : List Instance) (h2i : HostDict) (idx : Nat) (out : List Instance),
    ms.Nodup → selectMastersLoop nodes M allInst fuel ms h2i idx = some out → out.Nodup := by
  intro fuel
  induction fuel with
  | zero =>
    intro ms h2i idx out hms h
    simp [selectMastersLoop] at h
  | succ n ih =>
    intro ms h2i idx out hms h
    rw [selectMastersLoop] at h
    by_cases hg : ((ms.length : Int) < M ∧ allInst ≠ [])
    · rw [if_pos hg] at h
      cases hc : (dictLookup h2i (nodes.getD (idx % nodes.length) "")).filter
          (fun i => !(ms.contains i)) with
      | nil =>
        simp only [hc] at h
        by_cases hb : (idx + 1 > nodes.length * 2 ∧ ms.length = 0)
        · rw [if_pos hb] at h
          cases h
          exact hms
        · rw [if_neg hb] at h
          exact ih ms h2i (idx + 1) out hms h
      | cons c cs =>
        simp only [hc] at h
        have hnodup : (ms ++ [c]).Nodup := by
          apply List.Nodup.append hms (by simp)
          intro x hx hx'
          simp only [List.mem_singleton] at hx'
          subst hx'
          exact (head_filter_not_contains hc).1 hx
        by_cases hb : (idx + 1 > nodes.length * 2 ∧ (ms ++ [c]).length = 0)
        · rw [if_pos hb] at h
          cases h
          exact hnodup
        · rw [if_neg hb] at h
          exact ih _ _ _ out hnodup h
    · rw [if_neg hg] at h
      cases h
      exact hms

/-- Exit analysis of the selection loop: provided the accumulator respects
the quota, a returned masters list either meets the quota exactly, or is
empty (the defensive `break`, or an immediately false guard on an empty
accumulator), or the endpoint pool was empty. -/
theorem selectLoop_exit (nodes : List String) (M : Int) (allInst : List Instance) :
    ∀ (fuel : Nat) (ms : List Instance) (h2i : HostDict) (idx : Nat) (out : List Instance),
    (ms.length : Int) ≤ M → selectMastersLoop nodes M allInst fuel ms h2i idx = some out →
    (out.length : Int) = M ∨ out = [] ∨ allInst = [] := by
  intro fuel
  induction fuel with
  | zero =>
    intro ms h2i idx out hle h
    simp [selectMastersLoop] at h
  | succ n ih =>
    intro ms h2i idx out hle h
    rw [selectMastersLoop] at h
    by_cases hg : ((ms.length : Int) < M ∧ allInst ≠ [])
    · rw [if_pos hg] at h
      cases hc : (dictLookup h2i (nodes.getD (idx % nodes.length) "")).filter
          (fun i => !(ms.contains i)) with
      | nil =>
        simp only [hc] at h
        by_cases hb : (idx + 1 > nodes.length * 2 ∧ ms.length = 0)
        · rw [if_pos hb] at h
          cases h
          exact Or.inr (Or.inl (List.length_eq_zero.1 hb.2))
        · rw [if_neg hb] at h
          exact ih ms h2i (idx + 1) out hle h
      | cons c cs =>
        simp only [hc] at h
        by_cases hb : (idx + 1 > nodes.length * 2 ∧ (ms ++ [c]).length = 0)
        · exact absurd hb.2 (by simp)
        · rw [if_neg hb] at h
          refine ih _ _ _ out ?_ h
          have := hg.1
          simp only [List.length_append, List.length_singleton]
          push_cast
          omega
    · rw [if_neg hg] at h
      cases h
      rcases not_and_or.1 hg with h1 | h1
      · exact Or.inl (le_antisymm hle (not_lt.1 h1))
      · exact Or.inr (Or.inr (not_not.1 h1))

/-- Inversion of a successful `assignRolesFuel` run into its two phases. -/
theorem assignRolesFuel_ok_inv {cfg : TopologyConfig} {fuel : Nat}
    {ms : List Instance} {reps : List (Instance × List Instance)}
    (h : assignRolesFuel cfg fuel = some (.ok (ms, reps))) :
    selectMastersLoop cfg.nodes cfg.cluster.masters (enumerateInstances cfg) fuel []
        (buildH2I cfg.nodes (enumerateInstances cfg)) 0 = some ms ∧
    ∃ rem', assignReplicasAll cfg.cluster.replicas_per_master.toNat ms
        ((enumerateInstances cfg).filter (fun i => !(ms.contains i))) = .ok (reps, rem') := by
  rw [assignRolesFuel.eq_def] at h
  dsimp only [] at h
  cases hsel : selectMastersLoop cfg.nodes cfg.cluster.masters (enumerateInstances cfg) fuel []
      (buildH2I cfg.nodes (enumerateInstances cfg)) 0 with
  | none => rw [hsel] at h; exact absurd h (by simp)
  | some masters =>
    rw [hsel] at h
    dsimp only [] at h
    cases hra : assignReplicasAll cfg.cluster.replicas_per_master.toNat masters
        ((enumerateInstances cfg).filter (fun i => !(masters.contains i))) with
    | error e => rw [hra] at h; exact absurd h (by simp)
    | ok pr =>
      obtain ⟨pairs, rem'⟩ := pr
      rw [hra] at h
      dsimp only [] at h
      rw [Option.some.injEq, Except.ok.injEq, Prod.mk.injEq] at h
      obtain ⟨h1, h2⟩ := h
      subst h1; subst h2
      exact ⟨rfl, rem', hra⟩

/-! ### Concrete configurations used by witnesses and counterexamples -/

/-- 3 distinct hosts, 3 ports per host, 3 masters, 1 replica each:
`assign_roles` succeeds on this topology. -/
def cfgAnti : TopologyConfig :=
  { nodes := ["alpha", "beta", "gamma"], ports := { base := 7000, count_per_host := 3 },
    cluster := { masters := 3, replicas_per_master := 1 } }

/-- A topology whose `nodes` list mentions host `"b"` twice.  It passes all
numeric `validate` checks (6 = 1*(1+2) <= 3*1 instances), yet
`enumerate_instances` then produces the endpoint `("b", 7000)` twice. -/
def cfgDupHost : TopologyConfig :=
  { nodes := ["a", "b", "b"], ports := { base := 7000, count_per_host := 1 },
    cluster := { masters := 1, replicas_per_master := 2 } }

/-- A topology whose `nodes` list mentions host `"a"` twice with one port
each and two requested masters: after placing `("a", 7000)` once, the second
copy of that endpoint is never a fresh candidate, the quota is never met,
and `len(masters)` never returns to zero, so the `while` loop of
`assign_roles` runs forever. -/
def cfgSpin : TopologyConfig :=
  { nodes := ["a", "a"], ports := { base := 7000, count_per_host := 1 },
    cluster := { masters := 2, replicas_per_master := 0 } }

/-- One host with `count_per_host = 0` and one requested master: the
endpoint pool is empty, the `while` guard is immediately false, and
`assign_roles` returns `([], {})` without raising. -/
def cfgZeroPool : TopologyConfig :=
  { nodes := ["a"], ports := { base := 7000, count_per_host := 0 },
    cluster := { masters := 1, replicas_per_master := 0 } }

/-! ### C1 — anti-affinity of placement -/

/-- C1: for every `TopologyConfig` accepted by `validate`, whenever
`assign_roles` returns `(masters, replicas)` (with any fuel for its
selection loop), every replica assigned to a master lives on a different
host than that master. -/
theorem c1_anti_affinity (cfg : TopologyConfig) (fuel : Nat)
    (ms : List Instance) (reps : List (Instance × List Instance))
    (_hv : cfg.validateOk)
    (h : assignRolesFuel cfg fuel = some (.ok (ms, reps))) :
    ∀ p ∈ reps, ∀ r ∈ p.2, r.host ≠ p.1.host := by
  obtain ⟨-, rem', hra⟩ := assignRolesFuel_ok_inv h
  exact replicasAll_hosts _ _ _ _ hra

/-- Witness for C1 at `cfgAnti`: the replica `("beta", 7001)` that
`assign_roles` pairs with the master `("alpha", 7000)` is on a different
host. -/
theorem c1_anti_affinity_witness :
    ((⟨"beta", 7001⟩ : Instance)).host ≠ ((⟨"alpha", 7000⟩ : Instance)).host :=
  c1_anti_affinity cfgAnti 10
    [⟨"alpha", 7000⟩, ⟨"beta", 7000⟩, ⟨"gamma", 7000⟩]
    [(⟨"alpha", 7000⟩, [⟨"beta", 7001⟩]),
     (⟨"beta", 7000⟩, [⟨"alpha", 7001⟩]),
     (⟨"gamma", 7000⟩, [⟨"alpha", 7002⟩])]
    (by decide) (by rfl)
    (⟨"alpha", 7000⟩, [⟨"beta", 7001⟩]) (by decide)
    ⟨"beta", 7001⟩ (by decide)

/-! ### C4 — replica-pool exhaustion raises, no partial result -/

/-- A master whose replica quota is still positive while every instance
left in the pool sits on the master's own host makes the inner replica
loop raise `ValueError`. -/
theorem replicasForMaster_exhausted (m : Instance) (q : Nat) (rem : List Instance)
    (hq : 0 < q) (hall : ∀ i ∈ rem, i.host = m.host) :
    assignReplicasForMaster m q rem = .error insufficientReplicasMsg := by
  obtain ⟨q', rfl⟩ : ∃ q', q = q' + 1 := ⟨q - 1, by omega⟩
  have hnone : rem.find? (fun i => i.host != m.host) = none := by
    rw [List.find?_eq_none]
    intro x hx
    simp [hall x hx]
  simp only [assignReplicasForMaster, hnone]

/-- C4: if, when replica assignment reaches a master, the remaining pool
holds no endpoint on a different host while the quota is unmet, the whole
replica phase fails with the insufficient-capacity `ValueError`; that error
is the result of `assign_roles`; and `assign_roles` never returns a result
in which some master's replica list is shorter than the quota. -/
theorem c4_exhaustion_fatal :
    (∀ (m : Instance) (q : Nat) (rem tl : List Instance), 0 < q →
      (∀ i ∈ rem, i.host = m.host) →
      assignReplicasAll q (m :: tl) rem = .error insufficientReplicasMsg) ∧
    (∀ (cfg : TopologyConfig) (fuel : Nat) (ms : List Instance) (e : String),
      selectMastersLoop cfg.nodes cfg.cluster.masters (enumerateInstances cfg) fuel []
        (buildH2I cfg.nodes (enumerateInstances cfg)) 0 = some ms →
      assignReplicasAll cfg.cluster.replicas_per_master.toNat ms
        ((enumerateInstances cfg).filter (fun i => !(ms.contains i))) = .error e →
      assignRolesFuel cfg fuel = some (.error e)) ∧
    (∀ (cfg : TopologyConfig) (fuel : Nat) (ms : List Instance)
      (reps : List (Instance × List Instance)),
      assignRolesFuel cfg fuel = some (.ok (ms, reps)) →
      ∀ p ∈ reps, p.2.length = cfg.cluster.replicas_per_master.toNat) := by
  refine ⟨?_, ?_, ?_⟩
  · intro m q rem tl hq hall
    simp only [assignReplicasAll, replicasForMaster_exhausted m q rem hq hall]
  · intro cfg fuel ms e hsel hra
    rw [assignRolesFuel.eq_def]
    dsimp only []
    rw [hsel]
    dsimp only []
    rw [hra]
  · intro cfg fuel ms reps h
    obtain ⟨-, rem', hra⟩ := assignRolesFuel_ok_inv h
    exact replicasAll_length _ _ _ _ hra

/-- Witness for C4: a pool whose only endpoint shares the master's host. -/
theorem c4_exhaustion_fatal_witness :
    assignReplicasAll 1 [(⟨"a", 7000⟩ : Instance)] [(⟨"a", 7001⟩ : Instance)] =
      .error insufficientReplicasMsg :=
  c4_exhaustion_fatal.1 ⟨"a", 7000⟩ 1 [⟨"a", 7001⟩] [] (by decide) (by decide)

/-! ### C5 — the "two full rotations" bound never raises -/

/-- C5 (evaluation): at `cfgZeroPool` (`masters = 1`, an empty endpoint
pool), `assign_roles` returns `([], {})` — zero masters, no exception.
The defensive bound of the selection loop is a bare `break`; the function
body contains no `raise` on that path, so a zero-master outcome is
returned silently rather than failing with an insufficient-capacity
error. -/
theorem c5_zero_masters_silent :
    assignRolesFuel cfgZeroPool 1 = some (.ok ([], [])) := by rfl

/-! ### C3 — shape of a successful placement -/

/-- Under a validated config the endpoint pool is non-empty. -/
theorem enumerate_ne_nil {cfg : TopologyConfig} (hv : cfg.validateOk) :
    enumerateInstances cfg ≠ [] := by
  obtain ⟨hM, _, hMle, _, hnodes, _, _, hcount, _⟩ := hv
  have hlen := enumerate_length cfg
  have hn : 0 < cfg.nodes.length := List.length_pos.2 hnodes
  have hc : 0 < cfg.ports.count_per_host.toNat := by omega
  have : 0 < (enumerateInstances cfg).length := by
    rw [hlen]; exact Nat.mul_pos hn hc
  exact List.ne_nil_of_length_pos this

/-- The first loop iteration from the initial state always places a master:
the first host's bucket is non-empty and nothing is excluded yet.  Hence a
returned masters list is non-empty whenever the pool is non-empty and at
least one master is requested. -/
theorem selectLoop_init_ne_nil {cfg : TopologyConfig} {fuel : Nat} {out : List Instance}
    (hM : 0 < cfg.cluster.masters) (hne : enumerateInstances cfg ≠ [])
    (hsel : selectMastersLoop cfg.nodes cfg.cluster.masters (enumerateInstances cfg) fuel []
      (buildH2I cfg.nodes (enumerateInstances cfg)) 0 = some out) : out ≠ [] := by
  cases fuel with
  | zero => simp [selectMastersLoop] at hsel
  | succ n =>
    rw [selectMastersLoop] at hsel
    rw [if_pos (⟨by simpa using hM, hne⟩ :
      ((([] : List Instance).length : Int) < cfg.cluster.masters ∧
        enumerateInstances cfg ≠ []))] at hsel
    have hnodes : cfg.nodes ≠ [] := by
      intro hcontra
      apply hne
      unfold enumerateInstances
      rw [hcontra]
      rfl
    have hcpos : 0 < cfg.ports.count_per_host.toNat := by
      rcases Nat.eq_zero_or_pos cfg.ports.count_per_host.toNat with hz | hp
      · exfalso
        apply hne
        unfold enumerateInstances
        rw [hz]
        simp
      · exact hp
    have hmem0 : ({ host := cfg.nodes.getD 0 "", port := cfg.ports.base } : Instance) ∈
        enumerateInstances cfg := enumerate_head_mem hnodes hcpos
    have hlook : dictLookup (buildH2I cfg.nodes (enumerateInstances cfg))
        (cfg.nodes.getD (0 % cfg.nodes.length) "") =
        (enumerateInstances cfg).filter
          (fun i => i.host == cfg.nodes.getD (0 % cfg.nodes.length) "") :=
      buildH2I_lookup (fun i hi => host_mem_of_mem_enumerate hi) _
    cases hc : (dictLookup (buildH2I cfg.nodes (enumerateInstances cfg))
        (cfg.nodes.getD (0 % cfg.nodes.length) "")).filter
        (fun i => !(([] : List Instance).contains i)) with
    | nil =>
      exfalso
      have hmem1 : ({ host := cfg.nodes.getD 0 "", port := cfg.ports.base } : Instance) ∈
          (dictLookup (buildH2I cfg.nodes (enumerateInstances cfg))
            (cfg.nodes.getD (0 % cfg.nodes.length) "")).filter
            (fun i => !(([] : List Instance).contains i)) := by
        rw [hlook]
        apply List.mem_filter.2
        refine ⟨List.mem_filter.2 ⟨hmem0, ?_⟩, by simp⟩
        simp [Nat.zero_mod]
      rw [hc] at hmem1
      simp at hmem1
    | cons c cs =>
      simp only [hc] at hsel
      rw [if_neg (by simp)] at hsel
      exact selectLoop_ne_nil _ _ _ _ _ _ _ _ (by simp) hsel

/-- C3: on a config passing `validate`'s capacity checks, a successful
`assign_roles` run returns exactly `cfg.cluster.masters` masters and gives
each master exactly `cfg.cluster.replicas_per_master` replicas. -/
theorem c3_result_shape (cfg : TopologyConfig) (fuel : Nat)
    (ms : List Instance) (reps : List (Instance × List Instance))
    (hv : cfg.validateOk)
    (h : assignRolesFuel cfg fuel = some (.ok (ms, reps))) :
    ms.length = cfg.cluster.masters.toNat ∧
    ∀ p ∈ reps, p.2.length = cfg.cluster.replicas_per_master.toNat := by
  obtain ⟨hsel, rem', hra⟩ := assignRolesFuel_ok_inv h
  have hne := enumerate_ne_nil hv
  have hnenil := selectLoop_init_ne_nil hv.1 hne hsel
  have hexit := selectLoop_exit cfg.nodes cfg.cluster.masters (enumerateInstances cfg)
    fuel [] (buildH2I cfg.nodes (enumerateInstances cfg)) 0 ms
    (by simpa using le_of_lt hv.1) hsel
  rcases hexit with hlen | hnil | hpool
  · refine ⟨by omega, replicasAll_length _ _ _ _ hra⟩
  · exact absurd hnil hnenil
  · exact absurd hpool hne

/-- Witness for C3 at `cfgAnti` (3 masters requested, 3 returned, one
replica per master). -/
theorem c3_result_shape_witness :
    [(⟨"alpha", 7000⟩ : Instance), ⟨"beta", 7000⟩, ⟨"gamma", 7000⟩].length =
      (cfgAnti.cluster.masters).toNat ∧
    ∀ p ∈ [((⟨"alpha", 7000⟩ : Instance), [(⟨"beta", 7001⟩ : Instance)]),
           (⟨"beta", 7000⟩, [⟨"alpha", 7001⟩]),
           (⟨"gamma", 7000⟩, [⟨"alpha", 7002⟩])],
      p.2.length = (cfgAnti.cluster.replicas_per_master).toNat :=
  c3_result_shape cfgAnti 10
    [⟨"alpha", 7000⟩, ⟨"beta", 7000⟩, ⟨"gamma", 7000⟩]
    [(⟨"alpha", 7000⟩, [⟨"beta", 7001⟩]),
     (⟨"beta", 7000⟩, [⟨"alpha", 7001⟩]),
     (⟨"gamma", 7000⟩, [⟨"alpha", 7002⟩])]
    (by decide) (by rfl)

/-! ### C2 — uniqueness of placement -/

/-- C2 counterexample: `cfgDupHost` passes every numeric check of
`TopologyConfig.validate` (duplicate hostnames are never rejected), yet
`assign_roles` returns the replica `("b", 7000)` twice for the single
master, so the combined endpoint collection has a duplicate
`(host, port)` pair. -/
theorem c2_uniqueness_counterexample :
    cfgDupHost.validateOk ∧
    assignRolesFuel cfgDupHost 2 = some (.ok
      ([⟨"a", 7000⟩], [(⟨"a", 7000⟩, [⟨"b", 7000⟩, ⟨"b", 7000⟩])])) ∧
    ¬ (combinedEndpoints [⟨"a", 7000⟩]
        [(⟨"a", 7000⟩, [⟨"b", 7000⟩, ⟨"b", 7000⟩])]).Nodup :=
  ⟨by decide, by rfl, by decide⟩

/-- C2 (amended): when the `nodes` list has no duplicate hostname, a
successful `assign_roles` run yields pairwise-distinct endpoints across the
masters list and every replica list. -/
theorem c2_uniqueness_amended (cfg : TopologyConfig) (fuel : Nat)
    (ms : List Instance) (reps : List (Instance × List Instance))
    (hnodup : cfg.nodes.Nodup)
    (h : assignRolesFuel cfg fuel = some (.ok (ms, reps))) :
    (combinedEndpoints ms reps).Nodup := by
  obtain ⟨hsel, rem', hra⟩ := assignRolesFuel_ok_inv h
  have hall : (enumerateInstances cfg).Nodup := enumerate_nodup hnodup
  have hmsnodup : ms.Nodup := selectLoop_nodup _ _ _ fuel [] _ 0 ms (by simp) hsel
  have hremnodup : ((enumerateInstances cfg).filter (fun i => !(ms.contains i))).Nodup :=
    hall.filter _
  have hremnotin : ∀ i ∈ (enumerateInstances cfg).filter (fun i => !(ms.contains i)),
      i ∉ ms := by
    intro i hi hmem
    have hb := (List.mem_filter.1 hi).2
    simp only [Bool.not_eq_true'] at hb
    rw [List.contains_eq_any_beq] at hb
    have h2 : ms.any (fun x => i == x) = true := List.any_eq_true.2 ⟨i, hmem, by simp⟩
    rw [h2] at hb
    cases hb
  have hperm : (reps.flatMap (fun p => p.2) ++ rem').Perm
      ((enumerateInstances cfg).filter (fun i => !(ms.contains i))) :=
    replicasAll_perm _ _ _ _ hra
  have happnodup : (reps.flatMap (fun p => p.2) ++ rem').Nodup :=
    hperm.symm.nodup hremnodup
  have hflatnodup : (reps.flatMap (fun p => p.2)).Nodup :=
    (List.nodup_append.1 happnodup).1
  have hflatsub : ∀ x ∈ reps.flatMap (fun p => p.2),
      x ∈ (enumerateInstances cfg).filter (fun i => !(ms.contains i)) := by
    intro x hx
    exact hperm.subset (List.mem_append_left _ hx)
  unfold combinedEndpoints
  refine List.Nodup.append hmsnodup hflatnodup ?_
  intro x hxms hxflat
  exact hremnotin x (hflatsub x hxflat) hxms

/-- Witness for the amended C2 at `cfgAnti`. -/
theorem c2_uniqueness_amended_witness :
    (combinedEndpoints
      [⟨"alpha", 7000⟩, ⟨"beta", 7000⟩, ⟨"gamma", 7000⟩]
      [(⟨"alpha", 7000⟩, [⟨"beta", 7001⟩]),
       (⟨"beta", 7000⟩, [⟨"alpha", 7001⟩]),
       (⟨"gamma", 7000⟩, [⟨"alpha", 7002⟩])]).Nodup :=
  c2_uniqueness_amended cfgAnti 10
    [⟨"alpha", 7000⟩, ⟨"beta", 7000⟩, ⟨"gamma", 7000⟩]
    [(⟨"alpha", 7000⟩, [⟨"beta", 7001⟩]),
     (⟨"beta", 7000⟩, [⟨"alpha", 7001⟩]),
     (⟨"gamma", 7000⟩, [⟨"alpha", 7002⟩])]
    (by decide) (by rfl)

/-! ### C10 — termination of the master-selection loop -/

/-- Invariant of the selection loop relating the accumulated masters and
the mutated `host_to_instances` buckets to the (fixed) endpoint pool. -/
def LoopInv (allInst : List Instance) (ms : List Instance) (h2i : HostDict) : Prop :=
  ms.Nodup ∧
  (∀ i ∈ ms, i ∈ allInst) ∧
  (∀ i ∈ allInst, i ∉ ms → i ∈ dictLookup h2i i.host) ∧
  (∀ k i, i ∈ dictLookup h2i k → i.host = k) ∧
  (∀ k, (dictLookup h2i k).Nodup) ∧
  (∀ k i, i ∈ dictLookup h2i k → i ∈ allInst)

/-- One placement step preserves the loop invariant. -/
theorem loopInv_step {allInst : List Instance} {ms : List Instance} {h2i : HostDict}
    (hInv : LoopInv allInst ms h2i) {host : String} {c : Instance} {cs : List Instance}
    (hc : (dictLookup h2i host).filter (fun i => !(ms.contains i)) = c :: cs) :
    LoopInv allInst (ms ++ [c]) (dictUpdate h2i host (fun l => l.erase c)) ∧ c ∈ allInst := by
  obtain ⟨hms, hsub, hI3, hI4, hI5, hI6⟩ := hInv
  obtain ⟨hcnotin, hclook⟩ := head_filter_not_contains hc
  have hchost : c.host = host := hI4 host c hclook
  have hcall : c ∈ allInst := hI6 host c hclook
  have hhaskey : dictHasKey h2i host = true :=
    dictHasKey_of_lookup_ne_nil (List.ne_nil_of_mem hclook)
  refine ⟨⟨?_, ?_, ?_, ?_, ?_, ?_⟩, hcall⟩
  · exact List.Nodup.append hms (by simp)
      (fun x hx hx' => by simp only [List.mem_singleton] at hx'; exact hcnotin (hx' ▸ hx))
  · intro i hi
    rcases List.mem_append.1 hi with h1 | h1
    · exact hsub i h1
    · simp only [List.mem_singleton] at h1
      exact h1 ▸ hcall
  · intro i hi hnotin
    have hinotms : i ∉ ms := fun hmm => hnotin (List.mem_append_left _ hmm)
    have hinec : i ≠ c := fun hmm => hnotin (List.mem_append_right _ (by simp [hmm]))
    have hilook := hI3 i hi hinotms
    by_cases hk : i.host = host
    · rw [hk, dictLookup_update_self _ hhaskey]
      exact (List.mem_erase_of_ne hinec).2 (hk ▸ hilook)
    · rw [dictLookup_update_other _ hk]
      exact hilook
  · intro k i hi
    by_cases hk : k = host
    · subst hk
      rw [dictLookup_update_self _ hhaskey] at hi
      exact hI4 k i (List.erase_subset _ _ hi)
    · rw [dictLookup_update_other _ hk] at hi
      exact hI4 k i hi
  · intro k
    by_cases hk : k = host
    · subst hk
      rw [dictLookup_update_self _ hhaskey]
      exact (hI5 k).erase c
    · rw [dictLookup_update_other _ hk]
      exact hI5 k
  · intro k i hi
    by_cases hk : k = host
    · subst hk
      rw [dictLookup_update_self _ hhaskey] at hi
      exact hI6 k i (List.erase_subset _ _ hi)
    · rw [dictLookup_update_other _ hk] at hi
      exact hI6 k i hi

/-- While fewer masters than endpoints are placed, some endpoint is still
unplaced. -/
theorem exists_unplaced {allInst ms : List Instance} (hnodup : allInst.Nodup)
    (hlt : ms.length < allInst.length) :
    ∃ i ∈ allInst, i ∉ ms := by
  by_contra hcon
  push_neg at hcon
  have hsp : allInst.Subperm ms := List.subperm_of_subset hnodup hcon
  have := hsp.length_le
  omega

/-- The round-robin index reaches any residue within one full rotation. -/
theorem rot_hit (n j idx : Nat) (hn : 0 < n) (hj : j < n) :
    ∃ d, (idx + d) % n = j := by
  have h1 : idx % n < n := Nat.mod_lt idx hn
  rcases le_or_lt (idx % n) j with hc | hc
  · refine ⟨j - idx % n, ?_⟩
    have hsum : idx + (j - idx % n) = (j + n * (idx / n)) := by
      have := Nat.mod_add_div idx n
      omega
    rw [hsum, Nat.add_mul_mod_self_left, Nat.mod_eq_of_lt hj]
  · refine ⟨n + j - idx % n, ?_⟩
    have hsum : idx + (n + j - idx % n) = (n + j) + n * (idx / n) := by
      have := Nat.mod_add_div idx n
      omega
    rw [hsum, Nat.add_mul_mod_self_left, Nat.add_mod_left, Nat.mod_eq_of_lt hj]

/-- A member of a string list is reached by `getD` at some valid index. -/
theorem mem_getD_of_mem {l : List String} {a : String} (h : a ∈ l) :
    ∃ j, j < l.length ∧ l.getD j "" = a := by
  rw [List.mem_iff_getElem] at h
  obtain ⟨j, hj, hget⟩ := h
  refine ⟨j, hj, ?_⟩
  rw [List.getD_eq_getElem?_getD, List.getElem?_eq_getElem hj]
  simpa using hget

/-- A placement step terminates the loop: either the quota is now met (one
more iteration exits via the guard) or strictly fewer masters remain to
place and the outer induction hypothesis applies. -/
theorem loop_step_place (nodes : List String) (M : Int) (allInst : List Instance)
    (gas : Nat)
    (outerIH : ∀ ms h2i idx, LoopInv allInst ms h2i → (ms.length : Int) < M →
      M.toNat ≤ ms.length + gas →
      ∃ fuel, (selectMastersLoop nodes M allInst fuel ms h2i idx).isSome)
    {ms : List Instance} {h2i : HostDict} {idx : Nat} {c : Instance} {cs : List Instance}
    (hInv : LoopInv allInst ms h2i) (hlt : (ms.length : Int) < M)
    (hgas : M.toNat ≤ ms.length + (gas + 1))
    (hc : (dictLookup h2i (nodes.getD (idx % nodes.length) "")).filter
      (fun i => !(ms.contains i)) = c :: cs) :
    ∃ fuel, (selectMastersLoop nodes M allInst fuel ms h2i idx).isSome := by
  obtain ⟨hInv', hcall⟩ := loopInv_step hInv hc
  have hne : allInst ≠ [] := List.ne_nil_of_mem hcall
  have hnobreak : ¬ (idx + 1 > nodes.length * 2 ∧ (ms ++ [c]).length = 0) := by
    rintro ⟨-, habs⟩
    simp at habs
  have hnext : ∃ fuel, (selectMastersLoop nodes M allInst fuel (ms ++ [c])
      (dictUpdate h2i (nodes.getD (idx % nodes.length) "") (fun l => l.erase c))
      (idx + 1)).isSome := by
    by_cases hlt' : ((ms ++ [c]).length : Int) < M
    · refine outerIH _ _ _ hInv' hlt' ?_
      simp only [List.length_append, List.length_singleton]
      omega
    · refine ⟨1, ?_⟩
      rw [selectMastersLoop, if_neg (fun hg => hlt' hg.1)]
      exact Option.isSome_some
  obtain ⟨fuel, hfuel⟩ := hnext
  refine ⟨fuel + 1, ?_⟩
  rw [selectMastersLoop, if_pos ⟨hlt, hne⟩, hc]
  dsimp only
  rw [if_neg hnobreak]
  exact hfuel

/-- Within one rotation the loop either places a master or reaches the
pending endpoint's host and then places one; in all cases it returns. -/
theorem loop_term_inner (nodes : List String) (M : Int) (allInst : List Instance)
    (gas : Nat)
    (outerIH : ∀ ms h2i idx, LoopInv allInst ms h2i → (ms.length : Int) < M →
      M.toNat ≤ ms.length + gas →
      ∃ fuel, (selectMastersLoop nodes M allInst fuel ms h2i idx).isSome) :
    ∀ (d : Nat) (ms : List Instance) (h2i : HostDict) (idx : Nat) (i : Instance),
    LoopInv allInst ms h2i → (ms.length : Int) < M →
    M.toNat ≤ ms.length + (gas + 1) →
    i ∈ allInst → i ∉ ms → nodes.getD ((idx + d) % nodes.length) "" = i.host →
    ∃ fuel, (selectMastersLoop nodes M allInst fuel ms h2i idx).isSome := by
  intro d
  induction d with
  | zero =>
    intro ms h2i idx i hInv hlt hgas hiall hinotin hhost
    rw [Nat.add_zero] at hhost
    cases hc : (dictLookup h2i (nodes.getD (idx % nodes.length) "")).filter
        (fun i => !(ms.contains i)) with
    | nil =>
      exfalso
      have himem : i ∈ (dictLookup h2i (nodes.getD (idx % nodes.length) "")).filter
          (fun i => !(ms.contains i)) := by
        apply List.mem_filter.2
        refine ⟨?_, ?_⟩
        · rw [hhost]
          exact hInv.2.2.1 i hiall hinotin
        · simp only [Bool.not_eq_true']
          rw [List.contains_eq_any_beq]
          rw [List.any_eq_false]
          intro x hx
          intro hbeq
          exact hinotin (by simpa using (show i = x from by simpa using hbeq) ▸ hx)
      rw [hc] at himem
      simp at himem
    | cons c cs =>
      exact loop_step_place nodes M allInst gas outerIH hInv hlt hgas hc
  | succ d ih =>
    intro ms h2i idx i hInv hlt hgas hiall hinotin hhost
    have hne : allInst ≠ [] := List.ne_nil_of_mem hiall
    cases hc : (dictLookup h2i (nodes.getD (idx % nodes.length) "")).filter
        (fun i => !(ms.contains i)) with
    | nil =>
      by_cases hb : (idx + 1 > nodes.length * 2 ∧ ms.length = 0)
      · refine ⟨1, ?_⟩
        rw [selectMastersLoop, if_pos ⟨hlt, hne⟩, hc]
        dsimp only
        rw [if_pos hb]
        exact Option.isSome_some
      · have hhost' : nodes.getD ((idx + 1 + d) % nodes.length) "" = i.host := by
          have : idx + 1 + d = idx + (d + 1) := by omega
          rw [this]
          exact hhost
        obtain ⟨fuel, hfuel⟩ := ih ms h2i (idx + 1) i hInv hlt hgas hiall hinotin hhost'
        refine ⟨fuel + 1, ?_⟩
        rw [selectMastersLoop, if_pos ⟨hlt, hne⟩, hc]
        dsimp only
        rw [if_neg hb]
        exact hfuel
    | cons c cs =>
      exact loop_step_place nodes M allInst gas outerIH hInv hlt hgas hc

/-- Outer induction on the number of masters still to place. -/
theorem loop_term_outer (nodes : List String) (M : Int) (allInst : List Instance)
    (hhosts : ∀ i ∈ allInst, i.host ∈ nodes) (hnodup : allInst.Nodup)
    (hlen : M ≤ (allInst.length : Int)) (hn : nodes ≠ []) :
    ∀ (gas : Nat) (ms : List Instance) (h2i : HostDict) (idx : Nat),
    LoopInv allInst ms h2i → (ms.length : Int) < M → M.toNat ≤ ms.length + gas →
    ∃ fuel, (selectMastersLoop nodes M allInst fuel ms h2i idx).isSome := by
  intro gas
  induction gas with
  | zero =>
    intro ms h2i idx hInv hlt hgas
    exfalso
    omega
  | succ gas ih =>
    intro ms h2i idx hInv hlt hgas
    have hltlen : ms.length < allInst.length := by omega
    obtain ⟨i, hiall, hinotin⟩ := exists_unplaced hnodup hltlen
    obtain ⟨j, hj, hgetd⟩ := mem_getD_of_mem (hhosts i hiall)
    obtain ⟨d, hd⟩ := rot_hit nodes.length j idx (List.length_pos.2 hn) hj
    exact loop_term_inner nodes M allInst gas ih d ms h2i idx i hInv hlt hgas hiall hinotin
      (by rw [hd]; exact hgetd)

/-- C10 (amended): with pairwise-distinct hostnames, non-empty nodes,
`count_per_host > 0`, `masters > 0` and
`masters <= len(nodes) * count_per_host`, the primary-selection `while`
loop of `assign_roles` terminates (some finite fuel makes it return). -/
theorem c10_selection_terminates_amended (cfg : TopologyConfig)
    (hnodup : cfg.nodes.Nodup) (hn : cfg.nodes ≠ [])
    (hc : 0 < cfg.ports.count_per_host) (hM : 0 < cfg.cluster.masters)
    (hMle : cfg.cluster.masters ≤ (cfg.nodes.length : Int) * cfg.ports.count_per_host) :
    ∃ fuel, (selectMastersLoop cfg.nodes cfg.cluster.masters (enumerateInstances cfg) fuel []
      (buildH2I cfg.nodes (enumerateInstances cfg)) 0).isSome := by
  have hallnodup := enumerate_nodup hnodup
  have hhosts : ∀ i ∈ enumerateInstances cfg, i.host ∈ cfg.nodes :=
    fun i hi => host_mem_of_mem_enumerate hi
  have hlen : cfg.cluster.masters ≤ ((enumerateInstances cfg).length : Int) := by
    rw [enumerate_length]
    push_cast
    have hcast : ((cfg.ports.count_per_host.toNat : Int)) = cfg.ports.count_per_host :=
      Int.toNat_of_nonneg (le_of_lt hc)
    rw [hcast]
    exact hMle
  have hInv : LoopInv (enumerateInstances cfg) [] (buildH2I cfg.nodes (enumerateInstances cfg)) := by
    refine ⟨List.nodup_nil, by simp, ?_, ?_, ?_, ?_⟩
    · intro i hi _
      rw [buildH2I_lookup hhosts]
      exact List.mem_filter.2 ⟨hi, by simp⟩
    · intro k i hi
      rw [buildH2I_lookup hhosts] at hi
      have := (List.mem_filter.1 hi).2
      simpa using this
    · intro k
      rw [buildH2I_lookup hhosts]
      exact hallnodup.filter _
    · intro k i hi
      rw [buildH2I_lookup hhosts] at hi
      exact (List.mem_filter.1 hi).1
  exact loop_term_outer cfg.nodes cfg.cluster.masters (enumerateInstances cfg)
    hhosts hallnodup hlen hn cfg.cluster.masters.toNat [] _ 0 hInv
    (by simpa using hM) (by simp)

/-- Witness for the amended C10 at `cfgAnti`. -/
theorem c10_selection_terminates_amended_witness :
    ∃ fuel, (selectMastersLoop cfgAnti.nodes cfgAnti.cluster.masters
      (enumerateInstances cfgAnti) fuel []
      (buildH2I cfgAnti.nodes (enumerateInstances cfgAnti)) 0).isSome :=
  c10_selection_terminates_amended cfgAnti (by decide) (by decide) (by decide)
    (by decide) (by decide)

/-- After its first iteration on `cfgSpin`, the loop is stuck: the only
candidate endpoint equals the already-placed master, so no iteration ever
places another master, the quota `2` is never reached, and the defensive
`break` (which needs `len(masters) == 0`) never fires. -/
theorem spin_stuck :
    ∀ (fuel idx : Nat),
    selectMastersLoop ["a", "a"] 2 [⟨"a", 7000⟩, ⟨"a", 7000⟩] fuel
      [⟨"a", 7000⟩] [("a", [⟨"a", 7000⟩])] idx = none := by
  intro fuel
  induction fuel with
  | zero => intro idx; rfl
  | succ n ih =>
    intro idx
    rw [selectMastersLoop, if_pos (by decide :
      ((([(⟨"a", 7000⟩ : Instance)]).length : Int) < 2 ∧
        ([(⟨"a", 7000⟩ : Instance), ⟨"a", 7000⟩] ≠ [])))]
    have hhost : (["a", "a"] : List String).getD (idx % (["a", "a"] : List String).length) "" = "a" := by
      rcases Nat.mod_two_eq_zero_or_one idx with h | h <;>
        simp [List.length_cons, h]
    rw [hhost]
    have hscrut : (dictLookup [("a", [⟨"a", 7000⟩])] "a").filter
        (fun i => !(([(⟨"a", 7000⟩ : Instance)]).contains i)) = [] := by decide
    rw [hscrut]
    dsimp only
    rw [if_neg (by rintro ⟨-, habs⟩; simp at habs)]
    exact ih (idx + 1)

/-- C10 counterexample: at `cfgSpin` (hosts `["a", "a"]`, one port each,
two requested masters) every hypothesis of the claim holds — non-empty
nodes, `count_per_host = 1 > 0`, `masters = 2 > 0`, and
`masters = 2 <= 2 = len(nodes) * count_per_host` — yet no amount of fuel
makes the primary-selection loop return: `assign_roles` loops forever. -/
theorem c10_termination_counterexample :
    cfgSpin.nodes ≠ [] ∧ 0 < cfgSpin.ports.count_per_host ∧
    0 < cfgSpin.cluster.masters ∧
    cfgSpin.cluster.masters ≤ (cfgSpin.nodes.length : Int) * cfgSpin.ports.count_per_host ∧
    ¬ ∃ fuel, (selectMastersLoop cfgSpin.nodes cfgSpin.cluster.masters
      (enumerateInstances cfgSpin) fuel []
      (buildH2I cfgSpin.nodes (enumerateInstances cfgSpin)) 0).isSome := by
  refine ⟨by decide, by decide, by decide, by decide, ?_⟩
  rintro ⟨fuel, hf⟩
  cases fuel with
  | zero => simp [selectMastersLoop] at hf
  | succ n =>
    have hstep : selectMastersLoop cfgSpin.nodes cfgSpin.cluster.masters
        (enumerateInstances cfgSpin) (n + 1) []
        (buildH2I cfgSpin.nodes (enumerateInstances cfgSpin)) 0 =
        selectMastersLoop ["a", "a"] 2 [⟨"a", 7000⟩, ⟨"a", 7000⟩] n
          [⟨"a", 7000⟩] [("a", [⟨"a", 7000⟩])] 1 := by
      rfl
    rw [hstep, spin_stuck n 1] at hf
    simp at hf

/-! ### Character-level string helpers

Python string operations used by install.py and validate.py, implemented
over `List Char` by structural recursion so that concrete runs evaluate
inside the kernel. -/

/-- Python's notion of whitespace for `str.strip` (space, tab, newline,
carriage return, vertical tab, form feed). -/
def isPySpace (c : Char) : Bool :=
  c == ' ' || c == '\t' || c == '\n' || c == '\r' || c == '\x0b' || c == '\x0c'

/-- `str.strip()`. -/
def pyStrip (s : String) : String :=
  String.mk (((s.data.dropWhile isPySpace).reverse.dropWhile isPySpace).reverse)

/-- A decimal digit's value. -/
def charDigit (c : Char) : Option Nat :=
  if '0' ≤ c ∧ c ≤ '9' then some (c.toNat - '0'.toNat) else none

/-- Accumulating decimal parser; `none` on the first non-digit. -/
def digitsToNatAux : List Char → Nat → Option Nat
  | [], acc => some acc
  | c :: cs, acc =>
    match charDigit c with
    | none => none
    | some d => digitsToNatAux cs (acc * 10 + d)

/-- `int(s)` for base 10: optional surrounding whitespace, an optional
sign, then one or more digits; `none` models the `ValueError` raised on
anything else (Python also accepts digit-group underscores, which never
occur in the outputs modelled here). -/
def pyInt (s : String) : Option Int :=
  match (pyStrip s).data with
  | [] => none
  | '-' :: rest =>
    match rest with
    | [] => none
    | _ => (digitsToNatAux rest 0).map (fun n => -(n : Int))
  | '+' :: rest =>
    match rest with
    | [] => none
    | _ => (digitsToNatAux rest 0).map (fun n => (n : Int))
  | l => (digitsToNatAux l 0).map (fun n => (n : Int))

/-- `int(s)` as the Python expression: the parsed value, or the raised
`ValueError`. -/
def pythonIntE (s : String) : Except String Int :=
  match pyInt s with
  | some n => .ok n
  | none => .error ("invalid literal for int() with base 10: " ++ s)

/-- `str.startswith` on character lists. -/
def startsWithChars : List Char → List Char → Bool
  | [], _ => true
  | _ :: _, [] => false
  | p :: ps, c :: cs => p == c && startsWithChars ps cs

/-- Substring search on character lists. -/
def containsChars (pat : List Char) : List Char → Bool
  | [] => startsWithChars pat []
  | c :: cs => startsWithChars pat (c :: cs) || containsChars pat cs

/-- Python's `sub in s`. -/
def pyIn (sub s : String) : Bool :=
  containsChars sub.data s.data

/-- `s.split(sep, 1)` when `sep` occurs: the part before the first
separator and the part after; `none` when it does not occur. -/
def splitOnceChar (sep : Char) : List Char → Option (List Char × List Char)
  | [] => none
  | c :: cs =>
    if c == sep then some ([], cs)
    else (splitOnceChar sep cs).map (fun p => (c :: p.1, p.2))

/-- `s.split(sep)` for a one-character separator (keeps empty pieces,
`"".split(sep) == [""]`). -/
def splitOnCharAux (sep : Char) : List Char → List Char → List String
  | [], cur => [String.mk cur.reverse]
  | c :: cs, cur =>
    if c == sep then String.mk cur.reverse :: splitOnCharAux sep cs []
    else splitOnCharAux sep cs (c :: cur)

def pySplitChar (s : String) (sep : Char) : List String :=
  splitOnCharAux sep s.data []

/-- `str.splitlines()` for `\n`-separated text: like `split('\n')` but
without the trailing empty piece, and `[]` on the empty string (the other
Python line terminators never occur in the outputs modelled here). -/
def pySplitLines (s : String) : List String :=
  if s.data = [] then []
  else
    let parts := pySplitChar s '\n'
    if parts.getLastD "" = "" then parts.dropLast else parts

/-- `str.split()` with no argument: split on whitespace runs, no empty
pieces. -/
def pySplitWsAux : List Char → List Char → List String
  | [], cur => if cur = [] then [] else [String.mk cur.reverse]
  | c :: cs, cur =>
    if isPySpace c then
      if cur = [] then pySplitWsAux cs []
      else String.mk cur.reverse :: pySplitWsAux cs []
    else pySplitWsAux cs (c :: cur)

def pySplitWs (s : String) : List String :=
  pySplitWsAux s.data []

/-! ### The SSH executor (ssh.py)

`SSH` is modelled by a dry-run flag plus an executor function standing for
`paramiko`'s `exec_command` on the live connection: full command string in,
`(exit status, stdout, stderr)` out.  Each method additionally reports the
list of remote operations it dispatched, so that the dry-run claims can
state that nothing was dispatched. -/

/-- A remote side effect performed over the connection. -/
inductive RemoteOp where
  | connectAttempt (host : String)
  | execCmd (cmd : String)
  | sftpWrite (path : String) (content : String) (mode : Nat)
  | sftpMkdir (path : String)
deriving DecidableEq, Repr

/-- The live SSH state: the `dry_run` flag and the remote side's response
function. -/
structure SSHConn where
  dryRun : Bool
  exec : String → Nat × String × String

/-- Mirror of `ssh.quote_sh`: single quotes are escaped as
`'"'"'`, and a `$'...'` form is chosen when the value contains a
backslash, newline or tab. -/
def quoteSh (value : String) : String :=
  let escaped := String.mk (value.data.flatMap (fun c =>
    if c = '\'' then "\x27\"\x27\"\x27".data else [c]))
  if value.data.any (fun c => c = '\\' || c = '\n' || c = '\t') then
    "$\x27" ++ escaped ++ "\x27"
  else
    "\x27" ++ escaped ++ "\x27"

/-- Mirror of `SSH.run` (ssh.py lines 97-109), also reporting dispatched
operations: the full command is built first (sudo wrapping; no embedded
call site passes `env`), then the dry-run short circuit returns
`(0, "", "")` dispatching nothing; otherwise exactly one remote
`exec_command` happens. -/
def sshRunT (s : SSHConn) (command : String) (sudoFlag : Bool := true) :
    (Nat × String × String) × List RemoteOp :=
  let fullCmd := if sudoFlag then "sudo -H bash -lc " ++ quoteSh command else command
  if s.dryRun then ((0, "", ""), [])
  else (s.exec fullCmd, [RemoteOp.execCmd fullCmd])

/-- The value returned to the caller of `SSH.run`. -/
def sshRun (s : SSHConn) (command : String) (sudoFlag : Bool := true) :
    Nat × String × String :=
  (sshRunT s command sudoFlag).1

/-- Mirror of `SSH.connect` (ssh.py lines 36-38 for the dry-run path):
with `dry_run` the method returns immediately and no connection is
attempted; otherwise at least one paramiko connection attempt happens
(the retry/backoff loop is abstracted to the one reported attempt). -/
def sshConnectOps (s : SSHConn) (host : String) : List RemoteOp :=
  if s.dryRun then [] else [RemoteOp.connectAttempt host]

/-- Mirror of `SSH.mkdirs` (dry-run path literal): with `dry_run` nothing
is dispatched; otherwise the prefix-by-prefix `sftp.mkdir` loop runs,
abstracted to one reported operation for the full directory. -/
def sshMkdirsOps (s : SSHConn) (remoteDir : String) : List RemoteOp :=
  if s.dryRun then [] else [RemoteOp.sftpMkdir remoteDir]

/-- `posixpath.dirname`: everything before the last `/` (enough for the
absolute paths used by the pipeline). -/
def posixDirname (path : String) : String :=
  match splitOnceChar '/' path.data.reverse with
  | none => ""
  | some p => String.mk p.2.reverse

/-- Mirror of `SSH.put_text` (ssh.py lines 111-119): with `dry_run`
nothing is dispatched; otherwise the parent directories are ensured and
the file is written with the requested mode. -/
def sshPutTextOps (s : SSHConn) (remotePath content : String) (mode : Nat := 420) :
    List RemoteOp :=
  if s.dryRun then []
  else sshMkdirsOps s (posixDirname remotePath) ++
    [RemoteOp.sftpWrite remotePath content mode]

/-! ### Engine installation (install.py) -/

/-- Mirror of `install.detect_distro`. -/
def detectDistro (s : SSHConn) : String × String :=
  let r := sshRun s "source /etc/os-release && echo $ID && echo $VERSION_ID"
  if r.1 ≠ 0 then ("unknown", "")
  else
    let lines := ((pySplitLines r.2.1).map pyStrip).filter (fun l => l ≠ "")
    match lines with
    | [] => ("unknown", "")
    | [x] => (x, "")
    | x :: y :: _ => (x, y)

/-- Mirror of `install.install_prereqs`: fires the package-manager
commands for the detected family; all results are discarded by the
source. -/
def installPrereqs (s : SSHConn) : Unit :=
  let distro := (detectDistro s).1
  if distro ∈ (["ubuntu", "debian"] : List String) then
    let _ := sshRun s "apt-get update -y"
    let _ := sshRun s
      "DEBIAN_FRONTEND=noninteractive apt-get install -y build-essential tcl pkg-config wget tar gcc make systemd"
    ()
  else if distro ∈ (["rhel", "centos", "rocky", "almalinux", "amzn"] : List String) then
    let _ := sshRun s "yum install -y gcc make tcl pkgconfig wget tar systemd"
    ()
  else
    let _ := sshRun s "which gcc || true"
    let _ := sshRun s "which make || true"
    let _ := sshRun s "which wget || true"
    let _ := sshRun s "which tar || true"
    ()

/-- Mirror of `install.ensure_redis_user`. -/
def ensureRedisUser (s : SSHConn) : Unit :=
  let _ := sshRun s "id -u redis >/dev/null 2>&1 || useradd -r -s /sbin/nologin -M -U redis"
  ()

/-- Mirror of `install.validate_system_requirements` (install.py lines
83-109).  The two `int(out.strip())` parses can raise `ValueError` when
the command output is not numeric, which the source does not catch —
hence the `Except`.  The memory figure only feeds a log warning. -/
def validateSystemRequirements (s : SSHConn) : Except String Bool := do
  let rMem := sshRun s "free -m | grep \x27^Mem:\x27 | awk \x27\x7bprint $2\x7d\x27"
  if rMem.1 = 0 then
    let _totalMem ← pythonIntE (pyStrip rMem.2.1)
    pure ()
  let rDisk := sshRun s "df /tmp | tail -1 | awk \x27\x7bprint $4\x7d\x27"
  if rDisk.1 = 0 then
    let availableKb ← pythonIntE (pyStrip rDisk.2.1)
    if availableKb < 1024 * 1024 then
      return false
  let rTouch := sshRun s "touch /tmp/redis_test && rm -f /tmp/redis_test"
  if rTouch.1 ≠ 0 then
    return false
  return true

/-- Mirror of `install.install_redis_from_source` (install.py lines
112-143): requirements check, prerequisites, user, fetch/unpack, `make`
(exit-checked), `make install` (exit-checked), then the verification step
— which runs `{prefix}/bin/redis-server --version` and checks only its
exit status, never comparing the reported version string against the
requested `version`. -/
def installRedisFromSource (s : SSHConn) (version prefixDir : String) :
    Except String Unit := do
  let ok ← validateSystemRequirements s
  if ¬ ok then
    throw "System requirements validation failed"
  let _ := installPrereqs s
  let _ := ensureRedisUser s
  let _ := sshRun s ("mkdir -p /tmp/redis-src && cd /tmp/redis-src && rm -rf redis-" ++
    version ++ " redis-" ++ version ++ ".tar.gz")
  let _ := sshRun s ("cd /tmp/redis-src && wget -q https://download.redis.io/releases/redis-" ++
    version ++ ".tar.gz")
  let _ := sshRun s ("cd /tmp/redis-src && tar xzf redis-" ++ version ++ ".tar.gz")
  let rMake := sshRun s ("cd /tmp/redis-src/redis-" ++ version ++ " && make -j$(nproc)")
  if rMake.1 ≠ 0 then
    throw ("Failed to compile Redis: " ++ rMake.2.2)
  let rInst := sshRun s ("cd /tmp/redis-src/redis-" ++ version ++ " && make PREFIX=" ++
    prefixDir ++ " install")
  if rInst.1 ≠ 0 then
    throw ("Failed to install Redis: " ++ rInst.2.2)
  let rVer := sshRun s (prefixDir ++ "/bin/redis-server --version")
  if rVer.1 ≠ 0 then
    throw "Redis installation verification failed"
  let _ := sshRun s "rm -rf /tmp/redis-src"
  return ()

/-! ### C6 — version verification of the installed binary -/

/-- A live remote host whose every command succeeds with stdout
`"2097152"` — in particular `redis-server --version` reports that string,
which is not the requested version `7.2.5`. -/
def allOkConn : SSHConn :=
  { dryRun := false, exec := fun _ => (0, "2097152", "") }

/-- C6 (evaluation at the failing input): `install_redis_from_source`
declares success although the installed binary's `--version` output
(`"2097152"` here) does not report the requested version `7.2.5` — the
code checks only the exit status of the verification command, never the
reported version string. -/
theorem c6_no_version_comparison :
    installRedisFromSource allOkConn "7.2.5" "/usr/local" = .ok () ∧
    (allOkConn.exec ("sudo -H bash -lc " ++
      quoteSh "/usr/local/bin/redis-server --version")).2.1 = "2097152" ∧
    ("2097152" : String) ≠ "7.2.5" :=
  ⟨rfl, rfl, by decide⟩

/-! ### C9 — dry-run behaviour of the executor and of the pipeline -/

/-- C9 (executor no-op parts, plus evaluation at the failing input of the
pipeline part): with `dry_run` enabled and any remote behaviour,
`SSH.connect` attempts no connection, `SSH.run` returns exit code `0`
with empty stdout and stderr dispatching nothing, and
`SSH.put_text` / `SSH.mkdirs` perform no remote operation; however the
deploy pipeline does **not** complete without network access —
`install_redis_from_source` (called by `deploy` for every host) feeds the
empty dry-run stdout of the `free -m` probe to `int()`, which raises
`ValueError` for every requested version and install prefix. -/
theorem c9_dry_run_noop_but_pipeline_crashes :
    (∀ (ex : String → Nat × String × String) (host : String),
      sshConnectOps { dryRun := true, exec := ex } host = []) ∧
    (∀ (ex : String → Nat × String × String) (cmd : String) (sudoFlag : Bool),
      sshRunT { dryRun := true, exec := ex } cmd sudoFlag = ((0, "", ""), [])) ∧
    (∀ (ex : String → Nat × String × String) (path content : String) (mode : Nat),
      sshPutTextOps { dryRun := true, exec := ex } path content mode = []) ∧
    (∀ (ex : String → Nat × String × String) (dir : String),
      sshMkdirsOps { dryRun := true, exec := ex } dir = []) ∧
    (∀ (ex : String → Nat × String × String) (version prefixDir : String),
      installRedisFromSource { dryRun := true, exec := ex } version prefixDir =
        .error "invalid literal for int() with base 10: ") :=
  ⟨fun _ _ => rfl, fun _ _ _ => rfl, fun _ _ _ _ => rfl, fun _ _ => rfl,
   fun _ _ _ => rfl⟩

/-! ### Cluster formation (cluster.py) -/

/-- Mirror of `cluster.build_cluster_create_command`. -/
def buildClusterCreateCommand (masters : List Instance) (replicasPerMaster : Int) : String :=
  let addrs := masters.map (fun m => m.host ++ ":" ++ toString m.port)
  let parts := ["redis-cli", "--cluster", "create"] ++ addrs ++ ["--cluster-yes"] ++
    (if 0 < replicasPerMaster then ["--cluster-replicas", toString replicasPerMaster] else [])
  String.intercalate " " parts

/-- Mirror of `cluster.create_cluster` (cluster.py lines 21-35),
returning the list of `(host, command)` operations dispatched over SSH.
It recomputes the placement, builds the one create command, indexes
`masters[0]` (an `IndexError` on an empty list), opens a connection to
that host and issues the command exactly once with `sudo=False` — and
discards the `(exit code, stdout, stderr)` triple returned by `run`, as
the source does; there is no retry and no inspection of the result.  With
`dry_run` the `run` call dispatches nothing. -/
def createCluster (cfg : TopologyConfig) (fuel : Nat) (dryRun : Bool)
    (execAt : String → String → Nat × String × String) :
    Option (Except String (List (String × String))) :=
  match assignRolesFuel cfg fuel with
  | none => none
  | some (.error e) => some (.error e)
  | some (.ok (masters, _replicas)) =>
    match masters with
    | [] => some (.error "IndexError: list index out of range")
    | m :: _ =>
      let cmd := buildClusterCreateCommand masters cfg.cluster.replicas_per_master
      if dryRun then some (.ok [])
      else
        let _result := execAt m.host cmd
        some (.ok [(m.host, cmd)])

/-! ### C7 — single-shot formation, but the exit status is discarded -/

/-- A remote side on which the cluster-create command fails (exit 1). -/
def failCreateExec : String → String → Nat × String × String :=
  fun _ _ => (1, "", "[ERR] Not all 16384 slots are covered by nodes.")

/-- C7 (evaluation at the failing input): `create_cluster` issues exactly
one remote cluster-create operation, against the host of the first master
in placement order — but when that command exits non-zero the function
still returns success: the exit status of `ssh.run` is discarded, so a
failed formation does not fail the deployment. -/
theorem c7_create_single_shot_exit_ignored :
    createCluster cfgAnti 10 false failCreateExec =
      some (.ok [("alpha",
        "redis-cli --cluster create alpha:7000 beta:7000 gamma:7000 --cluster-yes --cluster-replicas 1")]) ∧
    (failCreateExec "alpha"
      "redis-cli --cluster create alpha:7000 beta:7000 gamma:7000 --cluster-yes --cluster-replicas 1").1 = 1 :=
  ⟨rfl, rfl⟩

/-! ### Cluster validation (validate.py) -/

/-- Association-list model of the string-to-string dicts built by
`_parse_redis_info` (assignment overwrites, insertion order kept). -/
abbrev StrDict := List (String × String)

def strDictGet (d : StrDict) (k : String) : Option String :=
  (d.find? (fun p => p.1 == k)).map (fun p => p.2)

def strDictSet (d : StrDict) (k v : String) : StrDict :=
  if d.any (fun p => p.1 == k) then d.map (fun p => if p.1 == k then (p.1, v) else p)
  else d ++ [(k, v)]

/-- Mirror of `validate._parse_redis_info`: for each line of the stripped
output, keep `key: value` pairs of lines that contain a colon and do not
start with `#`. -/
def parseRedisInfo (infoOutput : String) : StrDict :=
  (pySplitChar (pyStrip infoOutput) '\n').foldl (fun result line =>
    if pyIn ":" line && !(startsWithChars ['#'] line.data) then
      match splitOnceChar ':' line.data with
      | some p => strDictSet result (pyStrip (String.mk p.1)) (pyStrip (String.mk p.2))
      | none => result
    else result) []

/-- Mirror of `validate._validate_single_instance` (validate.py lines
53-80).  The remote behaviour of the probed instance is the function `R`:
command in, `(exit code, stdout, stderr)` out, or a raised exception
(connection failure, timeout, non-numeric `int()` input, ...) — any
exception becomes this probe's failure reason in the caller's `except`
block.  The memory numbers only feed a log warning, but the `int()`
parses can raise. -/
def validateSingleInstance (R : Instance → String → Except String (Nat × String × String))
    (inst : Instance) : Except String Unit := do
  let rPing ← R inst ("redis-cli -p " ++ toString inst.port ++ " ping")
  if rPing.1 ≠ 0 then
    throw ("Redis not responding to ping: " ++ rPing.2.2)
  if ¬ (pyIn "PONG" rPing.2.1) then
    throw ("Redis ping returned unexpected response: " ++ rPing.2.1)
  let rMem ← R inst ("redis-cli -p " ++ toString inst.port ++ " info memory")
  if rMem.1 = 0 then
    let memoryInfo := parseRedisInfo rMem.2.1
    let _usedMemory ← (match strDictGet memoryInfo "used_memory" with
      | none => Except.ok (0 : Int)
      | some v => pythonIntE v)
    let maxMemory := (strDictGet memoryInfo "maxmemory").getD "0"
    if maxMemory ≠ "0" then
      let _maxVal ← pythonIntE maxMemory
      pure ()
  return ()

/-- The accumulation loop of `validate_cluster` (validate.py lines
24-34): every enumerated endpoint is probed; each probe that raises
contributes `(instance, reason)` to the failure list, in enumeration
order, and never stops the loop. -/
def failedInstances (cfg : TopologyConfig)
    (R : Instance → String → Except String (Nat × String × String)) :
    List (Instance × String) :=
  (enumerateInstances cfg).filterMap (fun i =>
    match validateSingleInstance R i with
    | .ok _ => none
    | .error e => some (i, e))

/-- The message of the `RuntimeError` raised when the failure list is
non-empty: every failing endpoint with its reason. -/
def validationFailureMessage (failed : List (Instance × String)) : String :=
  "Cluster validation failed. Failed instances:\n" ++
    String.intercalate "\n" (failed.map (fun p =>
      "  " ++ p.1.host ++ ":" ++ toString p.1.port ++ " - " ++ p.2))

/-- Mirror of `validate._get_cluster_info`. -/
def getClusterInfo (R : Instance → String → Except String (Nat × String × String))
    (inst : Instance) : Except String StrDict := do
  let r ← R inst ("redis-cli -p " ++ toString inst.port ++ " cluster info")
  if r.1 ≠ 0 then
    throw ("Failed to query cluster info: " ++ r.2.2)
  return parseRedisInfo r.2.1

/-- The master/replica counting loop of `_validate_cluster_topology`
(validate.py lines 117-127). -/
def countClusterRoles (out : String) : Nat × Nat :=
  (pySplitChar (pyStrip out) '\n').foldl (fun counts line =>
    if pyStrip line ≠ "" then
      let parts := pySplitWs line
      if parts.length ≥ 3 then
        let role := parts.getD 2 ""
        if pyIn "master" role then (counts.1 + 1, counts.2)
        else if pyIn "slave" role then (counts.1, counts.2 + 1)
        else counts
      else counts
    else counts) (0, 0)

/-- Mirror of `validate._validate_cluster_topology`. -/
def validateClusterTopology (cfg : TopologyConfig)
    (R : Instance → String → Except String (Nat × String × String))
    (inst : Instance) : Except String Unit := do
  let r ← R inst ("redis-cli -p " ++ toString inst.port ++ " cluster nodes")
  if r.1 ≠ 0 then
    throw ("Failed to query cluster nodes: " ++ r.2.2)
  let counts := countClusterRoles r.2.1
  let expectedReplicas := cfg.cluster.masters * cfg.cluster.replicas_per_master
  if (counts.1 : Int) ≠ cfg.cluster.masters then
    throw ("Expected " ++ toString cfg.cluster.masters ++ " masters, found " ++
      toString counts.1)
  if (counts.2 : Int) ≠ expectedReplicas then
    throw ("Expected " ++ toString expectedReplicas ++ " replicas, found " ++
      toString counts.2)
  return ()

/-- Mirror of `validate.validate_cluster` (validate.py lines 13-50):
dry-run returns immediately; otherwise every enumerated endpoint is
probed and the failures are accumulated; a non-empty failure list raises
one `RuntimeError` listing all of them; only then are the cluster state
and topology of `instances[0]` checked. -/
def validateCluster (cfg : TopologyConfig) (dryRun : Bool)
    (R : Instance → String → Except String (Nat × String × String)) :
    Except String Unit :=
  if dryRun then .ok ()
  else
    let failed := failedInstances cfg R
    if failed ≠ [] then
      .error (validationFailureMessage failed)
    else
      match enumerateInstances cfg with
      | [] => .error "IndexError: list index out of range"
      | target :: _ => do
        let info ← getClusterInfo R target
        match strDictGet info "cluster_state" with
        | none => .error "KeyError: cluster_state"
        | some st =>
          if st ≠ "ok" then
            .error ("Cluster state is not OK: " ++ st)
          else
            validateClusterTopology cfg R target

/-! ### C8 — validation accumulates every failing endpoint -/

/-- C8: when some enumerated endpoint's probe fails, `validate_cluster`
(not in dry-run) fails with the error built from the full accumulated
failure list, and that list contains exactly the failing endpoints, each
with its reason — every endpoint is probed, none is skipped after an
earlier failure. -/
theorem c8_validation_accumulates (cfg : TopologyConfig)
    (R : Instance → String → Except String (Nat × String × String))
    (i : Instance) (e : String)
    (hi : i ∈ enumerateInstances cfg)
    (hfail : validateSingleInstance R i = .error e) :
    validateCluster cfg false R = .error (validationFailureMessage (failedInstances cfg R)) ∧
    (∀ (j : Instance) (e' : String),
      ((j, e') ∈ failedInstances cfg R ↔
        (j ∈ enumerateInstances cfg ∧ validateSingleInstance R j = .error e'))) := by
  have hmem : (i, e) ∈ failedInstances cfg R := by
    unfold failedInstances
    apply List.mem_filterMap.2
    exact ⟨i, hi, by rw [hfail]⟩
  have hne : failedInstances cfg R ≠ [] := List.ne_nil_of_mem hmem
  constructor
  · unfold validateCluster
    rw [if_neg (by simp)]
    rw [if_pos hne]
  · intro j e'
    constructor
    · intro hj
      unfold failedInstances at hj
      rcases List.mem_filterMap.1 hj with ⟨a, ha, hfa⟩
      cases hva : validateSingleInstance R a with
      | ok u => simp [hva] at hfa
      | error e2 =>
        simp only [hva, Option.some.injEq, Prod.mk.injEq] at hfa
        obtain ⟨h1, h2⟩ := hfa
        subst h1; subst h2
        exact ⟨ha, hva⟩
    · rintro ⟨hj, hv⟩
      unfold failedInstances
      exact List.mem_filterMap.2 ⟨j, hj, by rw [hv]⟩

/-- A fleet on which every SSH probe raises a connection error. -/
def downR : Instance → String → Except String (Nat × String × String) :=
  fun _ _ => .error "connection refused"

/-- Witness for C8 at `cfgAnti` with every probe failing. -/
theorem c8_validation_accumulates_witness :
    validateCluster cfgAnti false downR =
      .error (validationFailureMessage (failedInstances cfgAnti downR)) ∧
    (∀ (j : Instance) (e' : String),
      ((j, e') ∈ failedInstances cfgAnti downR ↔
        (j ∈ enumerateInstances cfgAnti ∧ validateSingleInstance downR j = .error e'))) :=
  c8_validation_accumulates cfgAnti downR ⟨"alpha", 7000⟩ "connection refused"
    (by decide) (by rfl)
